import Mathlib

/-!
Verification of the Copernicus DEM tile-download engine
(`src/download_worker.py`, call sites in `src/app_controller.py`).

The development shallowly embeds

* the tile-addressing helper `format_tile_s3_key` (string formatting of
  `f"N{abs(lat):02d}"` etc., `os.path.basename`),
* the `DownloadWorker.run` state machine: size-estimation pre-flight,
  the cancellable per-tile download loop with 1 MiB chunking, the
  per-tile `ClientError` handler, and the `finally: finished.emit()`,
* the arity of `DownloadWorker.__init__` and the worker-construction
  call in `AppController.start_download`.

Remote store and filesystem are modelled as maps keyed by the tile's
local file name.  This is faithful: the S3 key `{base}/{base}.tif`, the
local file name `{base}.tif` and the base name determine one another
(both are images of the injective map `base ↦ …`), so keying both maps
by the local file name identifies exactly the same objects as the
source's keying by S3 key (remote) and by path inside the one save
directory (local).

The stop flag `_is_stopped` is only ever set (never cleared), so the
sequence of values read at the successive polls of the flag is monotone;
it is represented by `stopAt : Option Nat`, the index of the first poll
that observes `True`.
-/

namespace Copernicus

/-! ## Decimal formatting, as in Python's `f"{n:02d}"` / `f"{n:03d}"` -/

/-- Decimal digits of `n` (most significant first), computed with a fuel
counter so that the definition is structurally recursive and evaluates
inside the kernel.  `n + 1` units of fuel always suffice. -/
def decCharsAux : Nat → Nat → List Char
  | 0, _ => []
  | fuel + 1, n =>
    if n < 10 then [Nat.digitChar n]
    else decCharsAux fuel (n / 10) ++ [Nat.digitChar (n % 10)]

/-- Decimal digit string of `n`, most significant digit first. -/
def decChars (n : Nat) : List Char := decCharsAux (n + 1) n

theorem decCharsAux_eq_of_lt :
    ∀ n f g, n < f → n < g → decCharsAux f n = decCharsAux g n := by
  intro n
  induction n using Nat.strong_induction_on with
  | _ n ih =>
    intro f g hf hg
    obtain ⟨f', rfl⟩ : ∃ f', f = f' + 1 := ⟨f - 1, by omega⟩
    obtain ⟨g', rfl⟩ : ∃ g', g = g' + 1 := ⟨g - 1, by omega⟩
    by_cases h10 : n < 10
    · simp [decCharsAux, h10]
    · have hdiv : n / 10 < n := Nat.div_lt_self (by omega) (by omega)
      simp only [decCharsAux, if_neg h10]
      rw [ih (n / 10) hdiv f' g' (by omega) (by omega)]

/-- Unfolding equation for `decChars`. -/
theorem decChars_eq (n : Nat) :
    decChars n = if n < 10 then [Nat.digitChar n]
                 else decChars (n / 10) ++ [Nat.digitChar (n % 10)] := by
  by_cases h10 : n < 10
  · simp [decChars, decCharsAux, h10]
  · have hdiv : n / 10 < n := Nat.div_lt_self (by omega) (by omega)
    rw [if_neg h10]
    show decCharsAux (n + 1) n = _
    have h1 : decCharsAux (n + 1) n
        = decCharsAux n (n / 10) ++ [Nat.digitChar (n % 10)] := by
      simp [decCharsAux, h10]
    rw [h1, decCharsAux_eq_of_lt (n / 10) n (n / 10 + 1) (by omega) (by omega)]
    rfl

/-- Python's `f"{n:0wd}"`: the decimal digits of `n`, left-padded with
`'0'` up to a minimum width `w` (never truncated). -/
def padChars (w n : Nat) : List Char :=
  List.replicate (w - (decChars n).length) '0' ++ decChars n

theorem decChars_lt_10 {n : Nat} (h : n < 10) : decChars n = [Nat.digitChar n] := by
  rw [decChars_eq]; simp [h]

theorem decChars_two {n : Nat} (h1 : 10 ≤ n) (h2 : n < 100) :
    decChars n = [Nat.digitChar (n / 10), Nat.digitChar (n % 10)] := by
  rw [decChars_eq]
  have h10 : ¬ n < 10 := by omega
  rw [if_neg h10, decChars_lt_10 (by omega)]
  rfl

theorem decChars_three {n : Nat} (h1 : 100 ≤ n) (h2 : n < 1000) :
    decChars n = [Nat.digitChar (n / 100), Nat.digitChar (n / 10 % 10), Nat.digitChar (n % 10)] := by
  rw [decChars_eq]
  have h10 : ¬ n < 10 := by omega
  rw [if_neg h10, decChars_two (by omega) (by omega)]
  have h100 : n / 10 / 10 = n / 100 := by omega
  rw [h100]
  rfl

/-- On two-digit inputs `padChars 2` is exactly the two decimal digits. -/
theorem padChars_two {n : Nat} (h : n ≤ 99) :
    padChars 2 n = [Nat.digitChar (n / 10), Nat.digitChar (n % 10)] := by
  by_cases h10 : n < 10
  · have hd : n / 10 = 0 := by omega
    have hm : n % 10 = n := by omega
    unfold padChars
    rw [decChars_lt_10 h10, hd, hm]
    rfl
  · unfold padChars
    rw [decChars_two (by omega) (by omega)]
    rfl

/-- On three-digit inputs `padChars 3` is exactly the three decimal digits. -/
theorem padChars_three {n : Nat} (h : n ≤ 999) :
    padChars 3 n = [Nat.digitChar (n / 100), Nat.digitChar (n / 10 % 10), Nat.digitChar (n % 10)] := by
  by_cases h10 : n < 10
  · have hd : n / 100 = 0 := by omega
    have hd2 : n / 10 % 10 = 0 := by omega
    have hm : n % 10 = n := by omega
    unfold padChars
    rw [decChars_lt_10 h10, hd, hd2, hm]
    rfl
  · by_cases h100 : n < 100
    · have hd : n / 100 = 0 := by omega
      have hd2 : n / 10 % 10 = n / 10 := by omega
      unfold padChars
      rw [decChars_two (by omega) (by omega), hd, hd2]
      rfl
    · unfold padChars
      rw [decChars_three (by omega) (by omega)]
      rfl

/-! ## Tile addressing (src/download_worker.py, `format_tile_s3_key`) -/

/-- `f"N{abs(lat):02d}" if lat >= 0 else f"S{abs(lat):02d}"` -/
def latStr (lat : Int) : String :=
  (if 0 ≤ lat then "N" else "S") ++ String.mk (padChars 2 lat.natAbs)

/-- `f"E{abs(lon):03d}" if lon >= 0 else f"W{abs(lon):03d}"` -/
def lonStr (lon : Int) : String :=
  (if 0 ≤ lon then "E" else "W") ++ String.mk (padChars 3 lon.natAbs)

/-- `f"Copernicus_DSM_COG_10_{lat_str}_00_{lon_str}_00_DEM"` -/
def baseStr (lat lon : Int) : String :=
  "Copernicus_DSM_COG_10_" ++ latStr lat ++ "_00_" ++ lonStr lon ++ "_00_DEM"

/-- `f"{base_name}/{base_name}.tif"` — the full S3 key of a tile. -/
def format_tile_s3_key (lat lon : Int) : String :=
  baseStr lat lon ++ "/" ++ baseStr lat lon ++ ".tif"

/-- `os.path.basename` for slash-separated paths: everything after the
last `'/'` (the whole string when it has no `'/'`). -/
def basename (s : String) : String :=
  String.mk ((s.data.reverse.takeWhile (fun c => c ≠ '/')).reverse)

/-- The local file name of a tile: `os.path.basename(format_tile_s3_key lat lon)`,
used by the worker both for the existence check and as download target. -/
def fileName (lat lon : Int) : String := baseStr lat lon ++ ".tif"

theorem data_append (s t : String) : (s ++ t).data = s.data ++ t.data := by
  cases s; cases t; rfl

theorem data_mk (l : List Char) : (String.mk l).data = l := rfl

theorem string_ext {s t : String} (h : s.data = t.data) : s = t := by
  cases s; cases t; exact congrArg String.mk h

/-! ## A parser recovering the coordinate from the key (for the
round-trip/injectivity property of §8 of the spec) -/

/-- Numeric value of a decimal digit character. -/
def digitVal (c : Char) : Nat := c.toNat - 48

theorem digitVal_digitChar : ∀ d : Nat, d < 10 → digitVal (Nat.digitChar d) = d := by decide

theorem isDigit_digitChar : ∀ d : Nat, d < 10 → (Nat.digitChar d).isDigit = true := by decide

theorem digitChar_ne_slash : ∀ d : Nat, d < 10 → Nat.digitChar d ≠ '/' := by decide

/-- Strip an exact expected prefix, returning the remainder. -/
def dropExact : List Char → List Char → Option (List Char)
  | [], cs => some cs
  | _ :: _, [] => none
  | p :: ps, c :: cs => if c = p then dropExact ps cs else none

theorem dropExact_append (p r : List Char) : dropExact p (p ++ r) = some r := by
  induction p with
  | nil => rfl
  | cons c cs ih => simp [dropExact, ih]

/-- Inverse of `format_tile_s3_key` on the valid tile grid: reads the
hemisphere letters and the 2-digit/3-digit absolute values back out of
the key. -/
def parseKeyChars (cs : List Char) : Option (Int × Int) :=
  match dropExact "Copernicus_DSM_COG_10_".data cs with
  | none => none
  | some rest =>
    match rest with
    | h1 :: a :: b :: rest2 =>
      match dropExact "_00_".data rest2 with
      | none => none
      | some rest3 =>
        match rest3 with
        | h2 :: d :: e :: f :: _ =>
          let latAbs : Nat := digitVal a * 10 + digitVal b
          let lonAbs : Nat := digitVal d * 100 + digitVal e * 10 + digitVal f
          some (if h1 = 'N' then (latAbs : Int) else -(latAbs : Int),
                if h2 = 'E' then (lonAbs : Int) else -(lonAbs : Int))
        | _ => none
    | _ => none

def parseKey (s : String) : Option (Int × Int) := parseKeyChars s.data

/-- The character-level decomposition of a key whose coordinate fields
fit in their minimum widths. -/
theorem key_data_decomp (lat lon : Int) (h1 : lat.natAbs ≤ 99) (h2 : lon.natAbs ≤ 999) :
    (format_tile_s3_key lat lon).data =
      "Copernicus_DSM_COG_10_".data ++
        ((if 0 ≤ lat then 'N' else 'S') ::
          Nat.digitChar (lat.natAbs / 10) :: Nat.digitChar (lat.natAbs % 10) ::
          ("_00_".data ++
            ((if 0 ≤ lon then 'E' else 'W') ::
              Nat.digitChar (lon.natAbs / 100) :: Nat.digitChar (lon.natAbs / 10 % 10) ::
              Nat.digitChar (lon.natAbs % 10) ::
              ("_00_DEM".data ++ ('/' :: ((baseStr lat lon).data ++ ".tif".data)))))) := by
  have hN : ("N" : String).data = ['N'] := rfl
  have hS : ("S" : String).data = ['S'] := rfl
  have hE : ("E" : String).data = ['E'] := rfl
  have hW : ("W" : String).data = ['W'] := rfl
  have hSl : ("/" : String).data = ['/'] := rfl
  by_cases hlat : 0 ≤ lat <;> by_cases hlon : 0 ≤ lon <;>
    simp [format_tile_s3_key, baseStr, latStr, lonStr, hlat, hlon, data_append, data_mk,
      padChars_two h1, padChars_three h2, hN, hS, hE, hW, hSl, List.append_assoc]

theorem parse_lat_val {lat : Int} (h1 : lat.natAbs ≤ 99) :
    (if (if 0 ≤ lat then 'N' else 'S') = 'N'
     then ((lat.natAbs / 10 * 10 + lat.natAbs % 10 : Nat) : Int)
     else -((lat.natAbs / 10 * 10 + lat.natAbs % 10 : Nat) : Int)) = lat := by
  by_cases hlat : 0 ≤ lat
  · rw [if_pos hlat, if_pos rfl]; omega
  · rw [if_neg hlat, if_neg (by decide)]; omega

theorem parse_lon_val {lon : Int} (h2 : lon.natAbs ≤ 999) :
    (if (if 0 ≤ lon then 'E' else 'W') = 'E'
     then ((lon.natAbs / 100 * 100 + lon.natAbs / 10 % 10 * 10 + lon.natAbs % 10 : Nat) : Int)
     else -((lon.natAbs / 100 * 100 + lon.natAbs / 10 % 10 * 10 + lon.natAbs % 10 : Nat) : Int))
      = lon := by
  by_cases hlon : 0 ≤ lon
  · rw [if_pos hlon, if_pos rfl]; omega
  · rw [if_neg hlon, if_neg (by decide)]; omega

/-- Round-trip of the parser after the formatter, on any coordinate
whose fields fit in the minimum widths (the whole valid grid does). -/
theorem parseKey_format {lat lon : Int} (h1 : lat.natAbs ≤ 99) (h2 : lon.natAbs ≤ 999) :
    parseKey (format_tile_s3_key lat lon) = some (lat, lon) := by
  rw [parseKey, key_data_decomp lat lon h1 h2]
  simp only [parseKeyChars, dropExact_append,
    digitVal_digitChar _ (show lat.natAbs / 10 < 10 by omega),
    digitVal_digitChar _ (show lat.natAbs % 10 < 10 by omega),
    digitVal_digitChar _ (show lon.natAbs / 100 < 10 by omega),
    digitVal_digitChar _ (show lon.natAbs / 10 % 10 < 10 by omega),
    digitVal_digitChar _ (show lon.natAbs % 10 < 10 by omega)]
  rw [parse_lat_val h1, parse_lon_val h2]

/-! ## `os.path.basename` on the key -/

theorem takeWhile_all_append {α : Type} (p : α → Bool) (l : List α) (x : α) (r : List α)
    (hl : ∀ c ∈ l, p c = true) (hx : p x = false) :
    (l ++ x :: r).takeWhile p = l := by
  induction l with
  | nil => simp [List.takeWhile_cons, hx]
  | cons a as ih =>
    have ha : p a = true := hl a (by simp)
    simp [List.takeWhile_cons, ha, ih (fun c hc => hl c (by simp [hc]))]

theorem mem_decChars : ∀ n : Nat, ∀ c ∈ decChars n, ∃ d, d < 10 ∧ c = Nat.digitChar d := by
  intro n
  induction n using Nat.strong_induction_on with
  | _ n ih =>
    intro c hc
    rw [decChars_eq] at hc
    by_cases h10 : n < 10
    · rw [if_pos h10] at hc
      simp only [List.mem_singleton] at hc
      exact ⟨n, h10, hc⟩
    · rw [if_neg h10] at hc
      rcases List.mem_append.mp hc with hc | hc
      · exact ih (n / 10) (Nat.div_lt_self (by omega) (by omega)) c hc
      · simp only [List.mem_singleton] at hc
        exact ⟨n % 10, by omega, hc⟩

theorem mem_padChars {w n : Nat} {c : Char} (hc : c ∈ padChars w n) :
    ∃ d, d < 10 ∧ c = Nat.digitChar d := by
  rcases List.mem_append.mp hc with hc | hc
  · exact ⟨0, by omega, by simpa using List.eq_of_mem_replicate hc⟩
  · exact mem_decChars n c hc

theorem latStr_no_slash (lat : Int) : ∀ c ∈ (latStr lat).data, c ≠ '/' := by
  intro c hc
  rw [latStr, data_append, data_mk] at hc
  rcases List.mem_append.mp hc with hc | hc
  · by_cases hl : 0 ≤ lat
    · rw [if_pos hl] at hc
      have h : ∀ x ∈ ("N" : String).data, x ≠ '/' := by decide
      exact h c hc
    · rw [if_neg hl] at hc
      have h : ∀ x ∈ ("S" : String).data, x ≠ '/' := by decide
      exact h c hc
  · obtain ⟨d, hd, rfl⟩ := mem_padChars hc
    exact digitChar_ne_slash d hd

theorem lonStr_no_slash (lon : Int) : ∀ c ∈ (lonStr lon).data, c ≠ '/' := by
  intro c hc
  rw [lonStr, data_append, data_mk] at hc
  rcases List.mem_append.mp hc with hc | hc
  · by_cases hl : 0 ≤ lon
    · rw [if_pos hl] at hc
      have h : ∀ x ∈ ("E" : String).data, x ≠ '/' := by decide
      exact h c hc
    · rw [if_neg hl] at hc
      have h : ∀ x ∈ ("W" : String).data, x ≠ '/' := by decide
      exact h c hc
  · obtain ⟨d, hd, rfl⟩ := mem_padChars hc
    exact digitChar_ne_slash d hd

theorem baseStr_no_slash (lat lon : Int) : ∀ c ∈ (baseStr lat lon).data, c ≠ '/' := by
  have hpre : ∀ c ∈ ("Copernicus_DSM_COG_10_" : String).data, c ≠ '/' := by decide
  have hmid : ∀ c ∈ ("_00_" : String).data, c ≠ '/' := by decide
  have hsuf : ∀ c ∈ ("_00_DEM" : String).data, c ≠ '/' := by decide
  have hb : (baseStr lat lon).data =
      "Copernicus_DSM_COG_10_".data ++ (latStr lat).data ++ "_00_".data ++
        (lonStr lon).data ++ "_00_DEM".data := by
    rw [baseStr, data_append, data_append, data_append, data_append]
  intro c hc
  rw [hb] at hc
  rcases List.mem_append.mp hc with hc | hc
  · rcases List.mem_append.mp hc with hc | hc
    · rcases List.mem_append.mp hc with hc | hc
      · rcases List.mem_append.mp hc with hc | hc
        · exact hpre c hc
        · exact latStr_no_slash lat c hc
      · exact hmid c hc
    · exact lonStr_no_slash lon c hc
  · exact hsuf c hc

/-- `os.path.basename(format_tile_s3_key(lat, lon))` — the local file
name the worker computes — is `{base}.tif`. -/
theorem basename_format (lat lon : Int) :
    basename (format_tile_s3_key lat lon) = fileName lat lon := by
  have htif : ∀ c ∈ (".tif" : String).data, c ≠ '/' := by decide
  apply string_ext
  have hk : (format_tile_s3_key lat lon).data =
      (baseStr lat lon).data ++ ('/' :: ((baseStr lat lon).data ++ ".tif".data)) := by
    simp [format_tile_s3_key, data_append, List.append_assoc]
  rw [basename, data_mk, hk, List.reverse_append, List.reverse_cons, List.append_assoc,
    List.singleton_append]
  rw [takeWhile_all_append _ _ _ _ ?_ (by decide)]
  · rw [List.reverse_reverse, fileName, data_append]
  · intro c hc
    rw [List.mem_reverse] at hc
    rcases List.mem_append.mp hc with hc | hc
    · exact decide_eq_true (baseStr_no_slash lat lon c hc)
    · exact decide_eq_true (htif c hc)

/-! ## Structure of the coordinate fields, for the addressing claim -/

theorem latStr_eq {lat : Int} (h : lat.natAbs ≤ 99) :
    latStr lat = String.mk [(if 0 ≤ lat then 'N' else 'S'),
      Nat.digitChar (lat.natAbs / 10), Nat.digitChar (lat.natAbs % 10)] := by
  apply string_ext
  by_cases hlat : 0 ≤ lat <;>
    simp [latStr, hlat, data_append, data_mk, padChars_two h]

theorem lonStr_eq {lon : Int} (h : lon.natAbs ≤ 999) :
    lonStr lon = String.mk [(if 0 ≤ lon then 'E' else 'W'),
      Nat.digitChar (lon.natAbs / 100), Nat.digitChar (lon.natAbs / 10 % 10),
      Nat.digitChar (lon.natAbs % 10)] := by
  apply string_ext
  by_cases hlon : 0 ≤ lon <;>
    simp [lonStr, hlon, data_append, data_mk, padChars_three h]

/-- **C8, counterexample.**  The claim quantifies over *every* integer
pair and asserts the latitude field is the hemisphere letter followed by
the zero-padded *2-digit* absolute value; but Python's `%02d` never
truncates, so at `lat = 100` the code produces `"N100"`, which is not of
the claimed one-letter-plus-two-digits shape. -/
theorem C8_counterexample :
    latStr 100 = "N100" ∧ ¬ ∃ d1 d2 : Char, latStr 100 = String.mk ['N', d1, d2] := by
  refine ⟨by decide, ?_⟩
  rintro ⟨d1, d2, h⟩
  rw [show latStr 100 = "N100" from by decide] at h
  have h4 : ("N100" : String).data.length = (String.mk ['N', d1, d2]).data.length := by rw [h]
  have e1 : ("N100" : String).data.length = 4 := rfl
  have e2 : (String.mk ['N', d1, d2]).data.length = 3 := rfl
  rw [e1, e2] at h4
  omega

/-- **C8 (amended).**  For every integer pair whose absolute values fit
the minimum field widths (`|lat| ≤ 99`, `|lon| ≤ 999` — in particular
the whole physical tile grid), `format_tile_s3_key` formats latitude as
`'N'` (lat ≥ 0) or `'S'` (lat < 0) followed by the zero-padded 2-digit
absolute value, longitude as `'E'`/`'W'` followed by the zero-padded
3-digit absolute value, with `lat = 0 → "N00"` and `lon = 0 → "E000"`;
the remote key is `{base}/{base}.tif` and the local file name
(`os.path.basename` of the key) is `{base}.tif`, where
`base = Copernicus_DSM_COG_10_{lat}_00_{lon}_00_DEM`.  (Outside those
bounds the absolute value keeps all its digits, refuting the 2-digit
clause of the original claim — see the counterexample.) -/
theorem C8_tile_addressing (lat lon : Int)
    (hlat : lat.natAbs ≤ 99) (hlon : lon.natAbs ≤ 999) :
    (∃ d1 d2 : Char, latStr lat = String.mk [(if 0 ≤ lat then 'N' else 'S'), d1, d2] ∧
        d1.isDigit = true ∧ d2.isDigit = true ∧
        digitVal d1 * 10 + digitVal d2 = lat.natAbs) ∧
    (∃ e1 e2 e3 : Char, lonStr lon = String.mk [(if 0 ≤ lon then 'E' else 'W'), e1, e2, e3] ∧
        e1.isDigit = true ∧ e2.isDigit = true ∧ e3.isDigit = true ∧
        digitVal e1 * 100 + digitVal e2 * 10 + digitVal e3 = lon.natAbs) ∧
    baseStr lat lon
      = "Copernicus_DSM_COG_10_" ++ latStr lat ++ "_00_" ++ lonStr lon ++ "_00_DEM" ∧
    format_tile_s3_key lat lon = baseStr lat lon ++ "/" ++ baseStr lat lon ++ ".tif" ∧
    basename (format_tile_s3_key lat lon) = fileName lat lon ∧
    fileName lat lon = baseStr lat lon ++ ".tif" ∧
    latStr 0 = "N00" ∧ lonStr 0 = "E000" := by
  refine ⟨⟨Nat.digitChar (lat.natAbs / 10), Nat.digitChar (lat.natAbs % 10), latStr_eq hlat,
      isDigit_digitChar _ (by omega), isDigit_digitChar _ (by omega), ?_⟩,
    ⟨Nat.digitChar (lon.natAbs / 100), Nat.digitChar (lon.natAbs / 10 % 10),
      Nat.digitChar (lon.natAbs % 10), lonStr_eq hlon,
      isDigit_digitChar _ (by omega), isDigit_digitChar _ (by omega),
      isDigit_digitChar _ (by omega), ?_⟩,
    rfl, rfl, basename_format lat lon, rfl, by decide, by decide⟩
  · rw [digitVal_digitChar _ (by omega), digitVal_digitChar _ (by omega)]
    omega
  · rw [digitVal_digitChar _ (by omega), digitVal_digitChar _ (by omega),
      digitVal_digitChar _ (by omega)]
    omega

/-- Witness for `C8_tile_addressing` at the spec's own example tile
(46, 11); the key evaluates to the value named in §8 of the spec. -/
theorem C8_tile_addressing_witness :
    ((46 : Int).natAbs ≤ 99 ∧ (11 : Int).natAbs ≤ 999) ∧
    format_tile_s3_key 46 11 =
      "Copernicus_DSM_COG_10_N46_00_E011_00_DEM/Copernicus_DSM_COG_10_N46_00_E011_00_DEM.tif" ∧
    basename (format_tile_s3_key 46 11) = fileName 46 11 := by
  exact ⟨⟨by decide, by decide⟩, by decide,
    (C8_tile_addressing 46 11 (by decide) (by decide)).2.2.2.2.1⟩

/-- **C9.**  On the valid tile grid (lat ∈ [-90, 89], lon ∈ [-180, 179])
the key formatter is injective, and the parser `parseKey` recovers the
exact coordinate from the key: parse after format is the identity. -/
theorem C9_key_injective_roundtrip :
    (∀ lat lon : Int, -90 ≤ lat → lat ≤ 89 → -180 ≤ lon → lon ≤ 179 →
      parseKey (format_tile_s3_key lat lon) = some (lat, lon)) ∧
    (∀ lat₁ lon₁ lat₂ lon₂ : Int,
      -90 ≤ lat₁ → lat₁ ≤ 89 → -180 ≤ lon₁ → lon₁ ≤ 179 →
      -90 ≤ lat₂ → lat₂ ≤ 89 → -180 ≤ lon₂ → lon₂ ≤ 179 →
      format_tile_s3_key lat₁ lon₁ = format_tile_s3_key lat₂ lon₂ →
      lat₁ = lat₂ ∧ lon₁ = lon₂) := by
  constructor
  · intro lat lon a b c d
    exact parseKey_format (by omega) (by omega)
  · intro l1 o1 l2 o2 a1 b1 c1 d1 a2 b2 c2 d2 h
    have hp1 := @parseKey_format l1 o1 (by omega) (by omega)
    have hp2 := @parseKey_format l2 o2 (by omega) (by omega)
    rw [h, hp2] at hp1
    injection hp1 with hp1
    exact ⟨(congrArg Prod.fst hp1).symm, (congrArg Prod.snd hp1).symm⟩

/-- Witness for `C9_key_injective_roundtrip` at the two example tiles of
§8 of the spec. -/
theorem C9_key_injective_roundtrip_witness :
    parseKey (format_tile_s3_key 46 11) = some (46, 11) ∧
    parseKey (format_tile_s3_key (-3) (-7)) = some (-3, -7) := by
  exact ⟨C9_key_injective_roundtrip.1 46 11 (by decide) (by decide) (by decide) (by decide),
    C9_key_injective_roundtrip.1 (-3) (-7) (by decide) (by decide) (by decide) (by decide)⟩

/-! ## The `DownloadWorker.run` state machine (src/download_worker.py)

The worker's five Qt signals become an event trace.  The status strings
of `tile_finished` are kept as an inductive type carrying the same
payload (`file_name`) as the corresponding f-string. -/

/-- The messages emitted on the `tile_finished` signal. -/
inductive Msg where
  /-- `"Calculating total download size..."` (line 43) -/
  | calculating : Msg
  /-- `"Download cancelled during size calculation."` (line 60) -/
  | cancelledDuringCalc : Msg
  /-- `"Download cancelled by user."` (line 70) -/
  | cancelledByUser : Msg
  /-- `f"Skipped (already exists): {file_name}"` (line 81) -/
  | skipped (file_name : String) : Msg
  /-- `f"Downloading: {file_name}..."` (line 84) -/
  | downloading (file_name : String) : Msg
  /-- `f"Cancelled: {file_name}"` (line 97) -/
  | cancelledFile (file_name : String) : Msg
  /-- `f"Finished: {file_name}"` (line 106) -/
  | finishedFile (file_name : String) : Msg
deriving DecidableEq, Repr

/-- The messages emitted on the `error_occurred` signal. -/
inductive ErrMsg where
  /-- `f"Error for {file_name}: {e}"` — the per-tile `ClientError` handler (line 109). -/
  | tileError (file_name : String) : ErrMsg
  /-- `f"A critical error occurred: {e}"` — the outer handler (line 115). -/
  | critical : ErrMsg
deriving DecidableEq, Repr

/-- One emission on one of the worker's five signals. -/
inductive Ev where
  | fileProgress (cur total : Nat) : Ev
  | totalProgress (cum grandTotal : Nat) : Ev
  | tileFinished (m : Msg) : Ev
  | errorOccurred (m : ErrMsg) : Ev
  | finished : Ev
deriving DecidableEq, Repr

/-- A run configuration: the job plus the environment the run interacts
with.  `head name` is the `ContentLength` answered by `head_object` for
the tile with local file name `name` (`none` = `ClientError`); `getObj
name` is the chunk-size sequence `iter_chunks` yields for a successful
`get_object` (`none` = `ClientError`); `fs0` is the initial directory
content (file name ↦ size on disk); `clientOk` is whether
`boto3.client(...)` construction succeeds; `stopAt` is the index of the
first read of `_is_stopped` that observes `True` (`none`: never). -/
structure Cfg where
  tiles : List (Int × Int)
  fs0 : List (String × Nat)
  clientOk : Bool
  head : String → Option Nat
  getObj : String → Option (List Nat)
  stopAt : Option Nat

/-- Engine state: the trace of emitted events, the directory content,
the number of `_is_stopped` reads so far, the number of `head_object`
and `get_object` calls issued, the cumulative byte counter and the
estimated grand total. -/
structure St where
  events : List Ev
  fs : List (String × Nat)
  polls : Nat
  heads : Nat
  gets : Nat
  cum : Nat
  grandTotal : Nat
deriving Repr

/-- `os.path.exists` / current size of a file, on the assoc-list directory. -/
def fsGet : List (String × Nat) → String → Option Nat
  | [], _ => none
  | (k, v) :: rest, n => if k = n then some v else fsGet rest n

/-- `os.remove`. -/
def fsRemove : List (String × Nat) → String → List (String × Nat)
  | [], _ => []
  | (k, v) :: rest, n => if k = n then fsRemove rest n else (k, v) :: fsRemove rest n

/-- Create or overwrite a file with `v` bytes. -/
def fsSet (fs : List (String × Nat)) (n : String) (v : Nat) : List (String × Nat) :=
  (n, v) :: fsRemove fs n

/-- The value a read of `_is_stopped` observes at poll index `k`. -/
def stopObserved (cfg : Cfg) (k : Nat) : Bool :=
  match cfg.stopAt with
  | some s => s ≤ k
  | none => false

/-- Read `_is_stopped` (one poll): the observed value plus the state
with the poll counter advanced. -/
def poll (cfg : Cfg) (s : St) : Bool × St :=
  (stopObserved cfg s.polls, { s with polls := s.polls + 1 })

/-- Emit one signal. -/
def emit (s : St) (e : Ev) : St := { s with events := s.events ++ [e] }

/-- The pre-flight size-estimation loop (lines 45-57): per tile, poll
the stop flag (line 46; `break` on `True`), and for files not already on
disk issue `head_object`, adding `ContentLength` to the running total
and silently ignoring `ClientError`. -/
def preflight (cfg : Cfg) : St → List (Int × Int) → St
  | s, [] => s
  | s, t :: rest =>
    let p := poll cfg s
    if p.1 then p.2
    else
      let name := fileName t.1 t.2
      if (fsGet p.2.fs name).isSome then preflight cfg p.2 rest
      else
        match cfg.head name with
        | some sz =>
          let s2 := { p.2 with heads := p.2.heads + 1 }
          preflight cfg { s2 with grandTotal := s2.grandTotal + sz } rest
        | none => preflight cfg { p.2 with heads := p.2.heads + 1 } rest

/-- The chunk loop (lines 90-106): for each chunk produced by
`iter_chunks`, poll the stop flag; on `True` delete the partial file and
emit `Cancelled:`; otherwise write the chunk, add its size to the
cumulative counter and emit `total_progress_updated`.  When the stream
ends with no chunk pending, the `for`-`else` emits `Finished:`. -/
def chunkLoop (cfg : Cfg) (name : String) : St → Nat → List Nat → St
  | s, _, [] => emit s (.tileFinished (.finishedFile name))
  | s, written, c :: rest =>
    let p := poll cfg s
    if p.1 then
      emit { p.2 with fs := fsRemove p.2.fs name } (.tileFinished (.cancelledFile name))
    else
      let w := written + c
      let s2 := { p.2 with fs := fsSet p.2.fs name w, cum := p.2.cum + c }
      chunkLoop cfg name (emit s2 (.totalProgress s2.cum s2.grandTotal)) w rest

/-- Lines 84-109: the body of the per-tile `try` after the existence
check — emit `Downloading:`, issue `get_object`; a `ClientError` goes to
the per-tile handler (`error_occurred`); on success `open(local_path,
'wb')` creates the file empty and the chunk loop streams into it. -/
def attemptDownload (cfg : Cfg) (s : St) (name : String) : St :=
  let s := emit s (.tileFinished (.downloading name))
  match cfg.getObj name with
  | none => emit { s with gets := s.gets + 1 } (.errorOccurred (.tileError name))
  | some chunks =>
    let s := { s with gets := s.gets + 1 }
    chunkLoop cfg name { s with fs := fsSet s.fs name 0 } 0 chunks

/-- The main download loop (lines 68-112): per tile, poll the stop flag
(line 69; emit `"Download cancelled by user."` and `break` on `True`),
emit `file_progress (i+1, total)`, skip existing files (`continue`, so
no line-111 poll), otherwise attempt the download and then poll the flag
again at line 111 (`break` on `True`, silently). -/
def downloadLoop (cfg : Cfg) : St → Nat → Nat → List (Int × Int) → St
  | s, _, _, [] => s
  | s, i, total, t :: rest =>
    let p := poll cfg s
    if p.1 then emit p.2 (.tileFinished .cancelledByUser)
    else
      let s := emit p.2 (.fileProgress (i + 1) total)
      let name := fileName t.1 t.2
      if (fsGet s.fs name).isSome then
        downloadLoop cfg (emit s (.tileFinished (.skipped name))) (i + 1) total rest
      else
        let s := attemptDownload cfg s name
        let p2 := poll cfg s
        if p2.1 then p2.2
        else downloadLoop cfg p2.2 (i + 1) total rest

/-- The state at entry of `run`: empty trace, the initial directory. -/
def initSt (cfg : Cfg) : St := ⟨[], cfg.fs0, 0, 0, 0, 0, 0⟩

/-- The body of the `try` block after successful client construction
(lines 43-112): status `"Calculating..."`, the pre-flight loop, the
line-59 stop check — which on `True` emits the cancelled-during-
calculation status *and* an explicit `finished` (line 61) before
returning — then the main download loop. -/
def runBody (cfg : Cfg) (s0 : St) : St :=
  let s := emit s0 (.tileFinished .calculating)
  let s := preflight cfg s cfg.tiles
  let p := poll cfg s
  if p.1 then
    emit (emit p.2 (.tileFinished .cancelledDuringCalc)) .finished
  else
    downloadLoop cfg p.2 0 cfg.tiles.length cfg.tiles

/-- `DownloadWorker.run` (lines 37-117).  Client construction failure
raises before anything else, landing in the outer `except` handler;
otherwise the `try` body runs.  Either way the `finally` block emits one
more `finished` at the very end — note that on the line-59/61 early
return the `finally` fires *in addition to* the explicit emit. -/
def run (cfg : Cfg) : St :=
  if cfg.clientOk = false then
    emit (emit (initSt cfg) (.errorOccurred .critical)) .finished
  else
    emit (runBody cfg (initSt cfg)) .finished

/-! ### Views of the event trace -/

/-- The `(current, total)` payloads of the `file_progress` emissions, in order. -/
def fileProgressEvents (l : List Ev) : List (Nat × Nat) :=
  l.filterMap fun e => match e with
    | .fileProgress c t => some (c, t)
    | _ => none

/-- The cumulative-byte payloads of the `total_progress_updated` emissions, in order. -/
def byteProgressValues (l : List Ev) : List Nat :=
  l.filterMap fun e => match e with
    | .totalProgress c _ => some c
    | _ => none

/-- The file names carried by the per-tile `error_occurred` emissions, in order. -/
def errorNames (l : List Ev) : List String :=
  l.filterMap fun e => match e with
    | .errorOccurred (.tileError n) => some n
    | _ => none

/-- The `file_progress` payloads a full pass over `n` tiles starting at
index `i` emits: `(i+1, total), (i+2, total), …, (i+n, total)`. -/
def fpExpected (i total : Nat) : Nat → List (Nat × Nat)
  | 0 => []
  | n + 1 => (i + 1, total) :: fpExpected (i + 1) total n

/-! ## The worker-construction call site (src/app_controller.py) -/

/-- The parameters of `DownloadWorker.__init__` besides `self`
(src/download_worker.py line 25): `tiles_to_download, save_path` — no
defaults, no `*args`/`**kwargs`, and in particular no overwrite-mode
parameter. -/
def downloadWorkerInitParams : List String := ["tiles_to_download", "save_path"]

/-- The positional arguments `AppController.start_download` passes to
`DownloadWorker(...)` (src/app_controller.py line 213). -/
def startDownloadWorkerArgs : List String :=
  ["list(self.model.get_selected_tiles())", "save_path", "overwrite_mode"]

/-- The `Signal` class attributes of `DownloadWorker`
(src/download_worker.py lines 19-23). -/
def downloadWorkerSignals : List String :=
  ["file_progress", "total_progress_updated", "tile_finished", "error_occurred", "finished"]

/-- CPython argument binding for a plain `def` with only positional
parameters, no defaults and no varargs: the call binds (does not raise
`TypeError`) iff the argument count equals the parameter count. -/
def pyCallBindsOk (params args : List String) : Bool := params.length == args.length

/-- **C4.**  The worker construction in `AppController.start_download`
passes three positional arguments while `DownloadWorker.__init__` takes
exactly two besides `self`, so the call raises `TypeError` and no
GUI-initiated download ever starts; moreover the signal `status_update`
that `start_download` would subsequently connect to does not exist on
the worker. -/
theorem C4_worker_construction_raises :
    pyCallBindsOk downloadWorkerInitParams startDownloadWorkerArgs = false ∧
    downloadWorkerInitParams.length = 2 ∧ startDownloadWorkerArgs.length = 3 ∧
    "status_update" ∉ downloadWorkerSignals := by decide

/-! ## C1: the exactly-once finished guarantee, refuted on the
cancelled-during-estimation path -/

/-- A job of one tile whose stop flag is already set when `run` starts:
the very first poll (inside size estimation) observes it. -/
def cfgC1 : Cfg := ⟨[(46, 11)], [], true, fun _ => none, fun _ => none, some 0⟩

/-- **C1 (refuted — code bug).**  On the cancelled-during-size-
-estimation path the worker emits the terminal `finished` notification
*twice*: once explicitly at line 61 and once more from the `finally`
block at line 117, which runs despite the `return` at line 62.  The
claim (and the spec) require exactly one. -/
theorem C1_finished_twice_on_estimation_cancel :
    (run cfgC1).events =
      [.tileFinished .calculating, .tileFinished .cancelledDuringCalc,
        .finished, .finished] ∧
    (run cfgC1).events.count .finished = 2 := by decide

/-! ## C2: no overwrite mode exists — existing files are always skipped -/

/-- A job of one tile whose file (1000 bytes) is already in the target
directory, with the remote object available (500 bytes in one chunk). -/
def cfgC2 : Cfg :=
  ⟨[(46, 11)], [(fileName 46 11, 1000)], true,
    fun _ => some 500, fun _ => some [500], none⟩

/-- **C2 (refuted — code bug).**  The worker has no overwrite mode at
all (`__init__` takes none, and constructing it with one raises
`TypeError` — see C4): whatever the user chose in the controller's
overwrite dialog, a tile whose local file already exists is *always*
recorded as skipped, with no `get_object` call and the file left
untouched — never downloaded again and replaced as the claim states for
policy Overwrite. -/
theorem C2_existing_file_always_skipped :
    (run cfgC2).gets = 0 ∧
    (run cfgC2).fs = [(fileName 46 11, 1000)] ∧
    Ev.tileFinished (.skipped (fileName 46 11)) ∈ (run cfgC2).events ∧
    Ev.tileFinished (.downloading (fileName 46 11)) ∉ (run cfgC2).events := by decide

/-! ## Basic lemmas on the directory map and the event views -/

theorem fsGet_fsRemove_self (fs : List (String × Nat)) (n : String) :
    fsGet (fsRemove fs n) n = none := by
  induction fs with
  | nil => rfl
  | cons p rest ih =>
    by_cases h : p.1 = n
    · simpa [fsRemove, h] using ih
    · simpa [fsRemove, fsGet, h] using ih

theorem fsGet_fsRemove_ne (fs : List (String × Nat)) {n m : String} (h : m ≠ n) :
    fsGet (fsRemove fs n) m = fsGet fs m := by
  induction fs with
  | nil => rfl
  | cons p rest ih =>
    by_cases hp : p.1 = n
    · have hnm : ¬ n = m := fun e => h e.symm
      simp [fsRemove, fsGet, hp, hnm, ih]
    · simp [fsRemove, fsGet, hp, ih]

theorem fsGet_fsSet_self (fs : List (String × Nat)) (n : String) (v : Nat) :
    fsGet (fsSet fs n v) n = some v := by
  simp [fsSet, fsGet]

theorem fsGet_fsSet_ne (fs : List (String × Nat)) {n m : String} (v : Nat) (h : m ≠ n) :
    fsGet (fsSet fs n v) m = fsGet fs m := by
  have : ¬ n = m := fun hnm => h hnm.symm
  simp [fsSet, fsGet, this, fsGet_fsRemove_ne fs h]

theorem stopObserved_none {cfg : Cfg} (h : cfg.stopAt = none) (k : Nat) :
    stopObserved cfg k = false := by
  simp [stopObserved, h]

theorem fileProgressEvents_append (a b : List Ev) :
    fileProgressEvents (a ++ b) = fileProgressEvents a ++ fileProgressEvents b :=
  List.filterMap_append a b _

theorem byteProgressValues_append (a b : List Ev) :
    byteProgressValues (a ++ b) = byteProgressValues a ++ byteProgressValues b :=
  List.filterMap_append a b _

theorem errorNames_append (a b : List Ev) :
    errorNames (a ++ b) = errorNames a ++ errorNames b :=
  List.filterMap_append a b _

/-- Element of `fpExpected`: a full pass over `n ≥ 1` tiles emits the
terminal `(i + n, total)` pair. -/
theorem fpExpected_mem (total : Nat) : ∀ n i, 0 < n → (i + n, total) ∈ fpExpected i total n := by
  intro n
  induction n with
  | zero => omega
  | succ m ih =>
    intro i _
    by_cases hm : 0 < m
    · have := ih (i + 1) hm
      simp only [fpExpected, List.mem_cons]
      right
      have he : i + 1 + m = i + (m + 1) := by omega
      rwa [he] at this
    · have hm0 : m = 0 := by omega
      subst hm0
      simp [fpExpected]

/-! ## The pre-flight phase touches neither trace, directory, GETs nor
byte counter -/

theorem preflight_preserves (cfg : Cfg) : ∀ l s,
    (preflight cfg s l).events = s.events ∧ (preflight cfg s l).fs = s.fs ∧
    (preflight cfg s l).gets = s.gets ∧ (preflight cfg s l).cum = s.cum := by
  intro l
  induction l with
  | nil => intro s; exact ⟨rfl, rfl, rfl, rfl⟩
  | cons t rest ih =>
    intro s
    simp only [preflight, poll]
    split
    · exact ⟨rfl, rfl, rfl, rfl⟩
    · split
      · exact ih _
      · split
        · exact ih _
        · exact ih _

/-- If the stop flag is set early enough to be observed within the
estimation phase, the poll counter after the pre-flight has reached it. -/
theorem preflight_polls_ge (cfg : Cfg) (k : Nat) (hstop : cfg.stopAt = some k) :
    ∀ l s, k ≤ s.polls + l.length → k ≤ (preflight cfg s l).polls := by
  intro l
  induction l with
  | nil => intro s h; simpa using h
  | cons t rest ih =>
    intro s h
    rw [List.length_cons] at h
    simp only [preflight, poll]
    split
    · show k ≤ s.polls + 1
      rename_i hobs
      simp only [stopObserved, hstop, decide_eq_true_eq] at hobs
      omega
    · split
      · exact ih _ (by show k ≤ s.polls + 1 + rest.length; omega)
      · split
        · exact ih _ (by show k ≤ s.polls + 1 + rest.length; omega)
        · exact ih _ (by show k ≤ s.polls + 1 + rest.length; omega)

/-! ## The chunk loop: no foreign signals, no foreign files -/

theorem chunkLoop_basic (cfg : Cfg) (name : String) : ∀ cs s w,
    fileProgressEvents (chunkLoop cfg name s w cs).events = fileProgressEvents s.events ∧
    errorNames (chunkLoop cfg name s w cs).events = errorNames s.events ∧
    (chunkLoop cfg name s w cs).gets = s.gets ∧
    ∀ m, m ≠ name → fsGet (chunkLoop cfg name s w cs).fs m = fsGet s.fs m := by
  intro cs
  induction cs with
  | nil =>
    intro s w
    refine ⟨?_, ?_, rfl, fun m hm => rfl⟩
    · simp [chunkLoop, emit, fileProgressEvents, List.filterMap_append]
    · simp [chunkLoop, emit, errorNames, List.filterMap_append]
  | cons c rest ih =>
    intro s w
    simp only [chunkLoop, poll]
    split
    · refine ⟨?_, ?_, rfl, fun m hm => ?_⟩
      · simp [emit, fileProgressEvents, List.filterMap_append]
      · simp [emit, errorNames, List.filterMap_append]
      · show fsGet (fsRemove s.fs name) m = fsGet s.fs m
        exact fsGet_fsRemove_ne _ hm
    · obtain ⟨ihf, ihe, ihg, ihfs⟩ := ih _ (w + c)
      refine ⟨?_, ?_, ?_, fun m hm => ?_⟩
      · rw [ihf]; simp [emit, fileProgressEvents, List.filterMap_append]
      · rw [ihe]; simp [emit, errorNames, List.filterMap_append]
      · rw [ihg]; rfl
      · rw [ihfs m hm]
        show fsGet (fsSet s.fs name (w + c)) m = fsGet s.fs m
        exact fsGet_fsSet_ne _ _ hm

/-! ## Per-file completeness invariant (for the no-partial-files claim) -/

/-- The file `n` is in a legitimate terminal state: untouched (same
content entry as at job start), absent, or byte-complete (its size is
the full sum of the remote object's chunk sizes). -/
def FileOk (cfg : Cfg) (fs : List (String × Nat)) (n : String) : Prop :=
  fsGet fs n = fsGet cfg.fs0 n ∨ fsGet fs n = none ∨
    ∃ cs, cfg.getObj n = some cs ∧ fsGet fs n = some (cs.sum)

theorem FileOk_of_eq {cfg : Cfg} {fs1 fs2 : List (String × Nat)} {n : String}
    (h : fsGet fs1 n = fsGet fs2 n) (h2 : FileOk cfg fs2 n) : FileOk cfg fs1 n := by
  unfold FileOk at h2 ⊢
  rw [h]
  exact h2

theorem chunkLoop_fileOk (cfg : Cfg) (name : String) (full : List Nat)
    (hget : cfg.getObj name = some full) :
    ∀ cs s w, w + cs.sum = full.sum → fsGet s.fs name = some w →
      (∀ n, n ≠ name → FileOk cfg s.fs n) →
      ∀ n, FileOk cfg (chunkLoop cfg name s w cs).fs n := by
  intro cs
  induction cs with
  | nil =>
    intro s w hsum hw hothers n
    by_cases hn : n = name
    · subst hn
      refine Or.inr (Or.inr ⟨full, hget, ?_⟩)
      have hwf : w = full.sum := by simpa using hsum
      show fsGet s.fs n = some full.sum
      rw [hw, hwf]
    · exact hothers n hn
  | cons c rest ih =>
    intro s w hsum hw hothers n
    simp only [chunkLoop, poll]
    split
    · by_cases hn : n = name
      · subst hn
        refine Or.inr (Or.inl ?_)
        show fsGet (fsRemove s.fs n) n = none
        exact fsGet_fsRemove_self _ _
      · exact FileOk_of_eq (show fsGet (fsRemove s.fs name) n = fsGet s.fs n from
          fsGet_fsRemove_ne _ hn) (hothers n hn)
    · refine ih _ (w + c) ?_ ?_ ?_ n
      · rw [List.sum_cons] at hsum; omega
      · show fsGet (fsSet s.fs name (w + c)) name = some (w + c)
        exact fsGet_fsSet_self _ _ _
      · intro m hm
        exact FileOk_of_eq (show fsGet (fsSet s.fs name (w + c)) m = fsGet s.fs m from
          fsGet_fsSet_ne _ _ hm) (hothers m hm)

/-! ## One tile attempt (lines 84-109) -/

theorem attempt_basic (cfg : Cfg) (s : St) (name : String) :
    fileProgressEvents (attemptDownload cfg s name).events = fileProgressEvents s.events ∧
    errorNames (attemptDownload cfg s name).events =
      errorNames s.events ++ (if cfg.getObj name = none then [name] else []) ∧
    ∀ m, m ≠ name → fsGet (attemptDownload cfg s name).fs m = fsGet s.fs m := by
  unfold attemptDownload
  cases hg : cfg.getObj name with
  | none =>
    refine ⟨?_, ?_, fun m hm => rfl⟩
    · simp [emit, fileProgressEvents, List.filterMap_append]
    · simp [emit, errorNames, List.filterMap_append]
  | some chunks =>
    obtain ⟨ihf, ihe, _, ihfs⟩ := chunkLoop_basic cfg name chunks _ 0
    refine ⟨?_, ?_, fun m hm => ?_⟩
    · rw [ihf]; simp [emit, fileProgressEvents, List.filterMap_append]
    · rw [ihe]; simp [emit, errorNames, List.filterMap_append]
    · rw [ihfs m hm]
      show fsGet (fsSet s.fs name 0) m = fsGet s.fs m
      exact fsGet_fsSet_ne _ _ hm

theorem attempt_fileOk (cfg : Cfg) (s : St) (name : String)
    (hall : ∀ n, FileOk cfg s.fs n) :
    ∀ n, FileOk cfg (attemptDownload cfg s name).fs n := by
  unfold attemptDownload
  cases hg : cfg.getObj name with
  | none => exact hall
  | some chunks =>
    refine chunkLoop_fileOk cfg name chunks hg chunks _ 0 (by omega) ?_ ?_
    · show fsGet (fsSet s.fs name 0) name = some 0
      exact fsGet_fsSet_self _ _ _
    · intro m hm
      exact FileOk_of_eq (show fsGet (fsSet s.fs name 0) m = fsGet s.fs m from
        fsGet_fsSet_ne _ _ hm) (hall m)

/-! ## The main loop preserves per-file completeness -/

theorem downloadLoop_fileOk (cfg : Cfg) : ∀ l s i total,
    (∀ n, FileOk cfg s.fs n) →
    ∀ n, FileOk cfg (downloadLoop cfg s i total l).fs n := by
  intro l
  induction l with
  | nil => intro s i total h n; exact h n
  | cons t rest ih =>
    intro s i total h n
    simp only [downloadLoop, poll]
    split
    · exact h n
    · split
      · refine ih ?_ (i + 1) total ?_ n
        exact fun m => h m
      · have hA : ∀ m, FileOk cfg (attemptDownload cfg
            (emit { s with polls := s.polls + 1 } (Ev.fileProgress (i + 1) total))
            (fileName t.1 t.2)).fs m :=
          attempt_fileOk cfg _ _ (fun m => h m)
        split
        · exact hA n
        · refine ih ?_ (i + 1) total ?_ n
          exact fun m => hA m

/-- Every file is in a legitimate terminal state when `run` returns. -/
theorem run_fileOk (cfg : Cfg) : ∀ n, FileOk cfg (run cfg).fs n := by
  intro n
  unfold run
  split
  · exact Or.inl rfl
  · simp only [runBody, poll]
    have hpre :=
      (preflight_preserves cfg cfg.tiles (emit (initSt cfg) (.tileFinished .calculating))).2.1
    have hbase : ∀ m, FileOk cfg
        (preflight cfg (emit (initSt cfg) (.tileFinished .calculating)) cfg.tiles).fs m := by
      intro m
      unfold FileOk
      rw [hpre]
      exact Or.inl rfl
    split
    · exact hbase n
    · exact downloadLoop_fileOk cfg cfg.tiles
        { preflight cfg (emit (initSt cfg) (Ev.tileFinished Msg.calculating)) cfg.tiles with
          polls := (preflight cfg (emit (initSt cfg)
            (Ev.tileFinished Msg.calculating)) cfg.tiles).polls + 1 }
        0 cfg.tiles.length (fun m => hbase m) n

/-- **C3.**  For every job and every tile, when `DownloadWorker.run`
returns control the tile's local file is untouched (exactly its initial
directory entry), wholly absent, or byte-complete (its size is the full
chunk sum of the remote object) — never a proper partial prefix: the
mid-file cancellation handler deletes the partial file, and no per-tile
error path creates one. -/
theorem C3_no_partial_file (cfg : Cfg) (lat lon : Int)
    (hmem : (lat, lon) ∈ cfg.tiles) :
    fsGet (run cfg).fs (fileName lat lon) = fsGet cfg.fs0 (fileName lat lon) ∨
    fsGet (run cfg).fs (fileName lat lon) = none ∨
    ∃ cs, cfg.getObj (fileName lat lon) = some cs ∧
      fsGet (run cfg).fs (fileName lat lon) = some cs.sum :=
  run_fileOk cfg (fileName lat lon)

/-- A one-tile job cancelled mid-file: the stop flag is first observed
at poll index 4, i.e. at the second chunk poll of the download (polls 0
and 1 are the pre-flight and line-59 checks, poll 2 the loop head, poll
3 the first chunk). -/
def cfgC3w : Cfg :=
  ⟨[(46, 11)], [], true, fun _ => some 600, fun _ => some [100, 200, 300], some 4⟩

/-- Witness for `C3_no_partial_file`: the mid-file-cancelled tile ends
wholly absent even though one chunk had been written. -/
theorem C3_no_partial_file_witness :
    ((46, 11) ∈ cfgC3w.tiles) ∧
    (fsGet (run cfgC3w).fs (fileName 46 11) = fsGet cfgC3w.fs0 (fileName 46 11) ∨
     fsGet (run cfgC3w).fs (fileName 46 11) = none ∨
     ∃ cs, cfgC3w.getObj (fileName 46 11) = some cs ∧
       fsGet (run cfgC3w).fs (fileName 46 11) = some cs.sum) :=
  ⟨by decide, C3_no_partial_file cfgC3w 46 11 (by decide)⟩

/-! ## Monotonicity of the cumulative byte counter -/

/-- The byte-progress values emitted so far are sorted and bounded by
the current cumulative counter. -/
def MonoEv (ev : List Ev) (cum : Nat) : Prop :=
  (byteProgressValues ev).Pairwise (· ≤ ·) ∧ ∀ x ∈ byteProgressValues ev, x ≤ cum

theorem MonoEv_nonbyte {ev : List Ev} {cum : Nat} (e : Ev)
    (he : byteProgressValues [e] = []) (h : MonoEv ev cum) : MonoEv (ev ++ [e]) cum := by
  unfold MonoEv at h ⊢
  rw [byteProgressValues_append, he, List.append_nil]
  exact h

theorem MonoEv_mono_cum {ev : List Ev} {cum cum' : Nat}
    (h : MonoEv ev cum) (hle : cum ≤ cum') : MonoEv ev cum' :=
  ⟨h.1, fun x hx => le_trans (h.2 x hx) hle⟩

theorem MonoEv_byte {ev : List Ev} {cum g : Nat} (h : MonoEv ev cum) :
    MonoEv (ev ++ [Ev.totalProgress cum g]) cum := by
  unfold MonoEv at h ⊢
  have hb : byteProgressValues (ev ++ [Ev.totalProgress cum g])
      = byteProgressValues ev ++ [cum] := by
    rw [byteProgressValues_append]; rfl
  rw [hb]
  constructor
  · rw [List.pairwise_append]
    exact ⟨h.1, List.pairwise_singleton _ _, fun a ha b hb => by
      simp only [List.mem_singleton] at hb; subst hb; exact h.2 a ha⟩
  · intro x hx
    rcases List.mem_append.mp hx with hx | hx
    · exact h.2 x hx
    · simp only [List.mem_singleton] at hx; omega

theorem chunkLoop_mono (cfg : Cfg) (name : String) : ∀ cs s w,
    MonoEv s.events s.cum →
    MonoEv (chunkLoop cfg name s w cs).events (chunkLoop cfg name s w cs).cum := by
  intro cs
  induction cs with
  | nil =>
    intro s w h
    exact MonoEv_nonbyte _ rfl h
  | cons c rest ih =>
    intro s w h
    simp only [chunkLoop, poll]
    split
    · exact MonoEv_nonbyte _ rfl h
    · refine ih _ (w + c) ?_
      show MonoEv (s.events ++ [Ev.totalProgress (s.cum + c) s.grandTotal]) (s.cum + c)
      exact MonoEv_byte (MonoEv_mono_cum h (by omega))

theorem attempt_mono (cfg : Cfg) (s : St) (name : String)
    (h : MonoEv s.events s.cum) :
    MonoEv (attemptDownload cfg s name).events (attemptDownload cfg s name).cum := by
  unfold attemptDownload
  cases hg : cfg.getObj name with
  | none =>
    show MonoEv ((s.events ++ [Ev.tileFinished (Msg.downloading name)])
      ++ [Ev.errorOccurred (ErrMsg.tileError name)]) s.cum
    exact MonoEv_nonbyte _ rfl (MonoEv_nonbyte _ rfl h)
  | some chunks =>
    refine chunkLoop_mono cfg name chunks _ 0 ?_
    show MonoEv (s.events ++ [Ev.tileFinished (Msg.downloading name)]) s.cum
    exact MonoEv_nonbyte _ rfl h

theorem downloadLoop_mono (cfg : Cfg) : ∀ l s i total,
    MonoEv s.events s.cum →
    MonoEv (downloadLoop cfg s i total l).events (downloadLoop cfg s i total l).cum := by
  intro l
  induction l with
  | nil => intro s i total h; exact h
  | cons t rest ih =>
    intro s i total h
    simp only [downloadLoop, poll]
    split
    · exact MonoEv_nonbyte _ rfl h
    · split
      · refine ih _ (i + 1) total ?_
        show MonoEv ((s.events ++ [Ev.fileProgress (i + 1) total])
          ++ [Ev.tileFinished (Msg.skipped (fileName t.1 t.2))]) s.cum
        exact MonoEv_nonbyte _ rfl (MonoEv_nonbyte _ rfl h)
      · have hA : MonoEv (attemptDownload cfg
            (emit { s with polls := s.polls + 1 } (Ev.fileProgress (i + 1) total))
            (fileName t.1 t.2)).events
            (attemptDownload cfg
              (emit { s with polls := s.polls + 1 } (Ev.fileProgress (i + 1) total))
              (fileName t.1 t.2)).cum := by
          refine attempt_mono cfg _ _ ?_
          show MonoEv (s.events ++ [Ev.fileProgress (i + 1) total]) s.cum
          exact MonoEv_nonbyte _ rfl h
        split
        · exact hA
        · exact ih _ (i + 1) total hA

/-! ## The loop under no cancellation: every tile is processed, errors
are isolated -/

theorem attempt_fp_eq (cfg : Cfg) (s : St) (name : String) :
    fileProgressEvents (attemptDownload cfg s name).events = fileProgressEvents s.events :=
  (attempt_basic cfg s name).1

theorem attempt_err_eq (cfg : Cfg) (s : St) (name : String) :
    errorNames (attemptDownload cfg s name).events =
      errorNames s.events ++ (if cfg.getObj name = none then [name] else []) :=
  (attempt_basic cfg s name).2.1

theorem attempt_fs_of_clientError (cfg : Cfg) (s : St) (name : String)
    (hg : cfg.getObj name = none) : (attemptDownload cfg s name).fs = s.fs := by
  unfold attemptDownload
  rw [hg]
  rfl

/-- Singleton-trace computations for the event views. -/
theorem fileProgressEvents_fp_skip (i total : Nat) (n : String) :
    fileProgressEvents [Ev.fileProgress i total, Ev.tileFinished (Msg.skipped n)]
      = [(i, total)] := rfl

theorem fileProgressEvents_fp (i total : Nat) :
    fileProgressEvents [Ev.fileProgress i total] = [(i, total)] := rfl

theorem errorNames_fp_skip (i total : Nat) (n : String) :
    errorNames [Ev.fileProgress i total, Ev.tileFinished (Msg.skipped n)] = [] := rfl

theorem errorNames_fp (i total : Nat) :
    errorNames [Ev.fileProgress i total] = [] := rfl

theorem fileProgressEvents_skip (n : String) :
    fileProgressEvents [Ev.tileFinished (Msg.skipped n)] = [] := rfl

theorem errorNames_skip (n : String) :
    errorNames [Ev.tileFinished (Msg.skipped n)] = [] := rfl

theorem byteProgressValues_fp (i total : Nat) :
    byteProgressValues [Ev.fileProgress i total] = [] := rfl

theorem byteProgressValues_skip (n : String) :
    byteProgressValues [Ev.tileFinished (Msg.skipped n)] = [] := rfl

/-- With the stop flag never observed, the loop emits `file_progress`
for every tile in order: one `(i+1, total) … (i+n, total)` pass. -/
theorem downloadLoop_noStop_fp (cfg : Cfg) (hstop : cfg.stopAt = none) :
    ∀ l s i total,
      fileProgressEvents (downloadLoop cfg s i total l).events
        = fileProgressEvents s.events ++ fpExpected i total l.length := by
  intro l
  induction l with
  | nil => intro s i total; simp [downloadLoop, fpExpected]
  | cons t rest ih =>
    intro s i total
    simp only [downloadLoop, poll, stopObserved_none hstop]
    split
    · rename_i hc; exact absurd hc Bool.false_ne_true
    split
    · rw [ih]
      simp [emit, fileProgressEvents_append, fileProgressEvents_fp,
        fileProgressEvents_skip, fileProgressEvents_fp_skip, fpExpected]
    · rw [ih]
      simp [emit, attempt_fp_eq, fileProgressEvents_append, fileProgressEvents_fp, fpExpected]

/-- Once downloaded or failed, the directory entry of a remotely-failing
file never moves: the engine only creates files whose GET succeeded. -/
def UntouchedIfFailing (cfg : Cfg) (fs : List (String × Nat)) : Prop :=
  ∀ n, cfg.getObj n = none → fsGet fs n = fsGet cfg.fs0 n

/-- The tiles of a pass that produce a per-tile error notification:
local file absent at job start and remote GET failing. -/
def failPred (cfg : Cfg) (t : Int × Int) : Bool :=
  (fsGet cfg.fs0 (fileName t.1 t.2)).isNone && (cfg.getObj (fileName t.1 t.2)).isNone

/-- With the stop flag never observed, the error notifications of the
whole loop are exactly one per failing tile, in order, each naming the
tile's file. -/
theorem downloadLoop_noStop_err (cfg : Cfg) (hstop : cfg.stopAt = none) :
    ∀ l s i total, UntouchedIfFailing cfg s.fs →
      errorNames (downloadLoop cfg s i total l).events
        = errorNames s.events
          ++ (l.filter (failPred cfg)).map (fun t => fileName t.1 t.2) := by
  intro l
  induction l with
  | nil => intro s i total hinv; simp [downloadLoop]
  | cons t rest ih =>
    intro s i total hinv
    simp only [downloadLoop, poll, stopObserved_none hstop]
    split
    · rename_i hc; exact absurd hc Bool.false_ne_true
    split
    · rename_i hex
      have hpred : failPred cfg t = false := by
        unfold failPred
        cases hg : cfg.getObj (fileName t.1 t.2) with
        | none =>
          rw [← hinv _ hg]
          rcases Option.isSome_iff_exists.mp hex with ⟨v, hv⟩
          have hv2 : fsGet s.fs (fileName t.1 t.2) = some v := hv
          rw [hv2]
          rfl
        | some g => simp
      have hinv2 : UntouchedIfFailing cfg (emit (emit { s with polls := s.polls + 1 }
          (Ev.fileProgress (i + 1) total))
          (Ev.tileFinished (Msg.skipped (fileName t.1 t.2)))).fs :=
        fun n hg => hinv n hg
      rw [ih _ (i + 1) total hinv2]
      simp [emit, errorNames_append, errorNames_fp, errorNames_skip,
        errorNames_fp_skip, List.filter_cons, hpred]
    · rename_i hex
      have hex2 : ¬ (fsGet s.fs (fileName t.1 t.2)).isSome = true := hex
      have hnone : fsGet s.fs (fileName t.1 t.2) = none := by
        cases hv : fsGet s.fs (fileName t.1 t.2) with
        | none => rfl
        | some v => rw [hv] at hex2; simp at hex2
      set A := attemptDownload cfg
        (emit { s with polls := s.polls + 1 } (Ev.fileProgress (i + 1) total))
        (fileName t.1 t.2) with hA
      cases hg : cfg.getObj (fileName t.1 t.2) with
      | none =>
        have hf0 : fsGet cfg.fs0 (fileName t.1 t.2) = none := by
          rw [← hinv _ hg]; exact hnone
        have hpred : failPred cfg t = true := by
          unfold failPred
          rw [hf0, hg]
          rfl
        have hfs : A.fs = s.fs := attempt_fs_of_clientError cfg _ _ hg
        have hinv2 : UntouchedIfFailing cfg ({ A with polls := A.polls + 1 }).fs := by
          intro n hgn
          show fsGet A.fs n = fsGet cfg.fs0 n
          rw [hfs]
          exact hinv n hgn
        rw [ih _ (i + 1) total hinv2]
        have hAe : errorNames ({ A with polls := A.polls + 1 }).events
            = errorNames s.events ++ [fileName t.1 t.2] := by
          show errorNames A.events = _
          rw [hA, attempt_err_eq, if_pos hg]
          simp [emit, errorNames_append, errorNames_fp]
        rw [hAe]
        simp [List.filter_cons, hpred]
      | some g =>
        have hpred : failPred cfg t = false := by
          unfold failPred
          rw [hg]
          simp
        have hinv2 : UntouchedIfFailing cfg ({ A with polls := A.polls + 1 }).fs := by
          intro n hgn
          have hne : n ≠ fileName t.1 t.2 := fun he => by rw [he, hg] at hgn; cases hgn
          show fsGet A.fs n = fsGet cfg.fs0 n
          rw [hA, (attempt_basic cfg _ _).2.2 n hne]
          exact hinv n hgn
        rw [ih _ (i + 1) total hinv2]
        have hAe : errorNames ({ A with polls := A.polls + 1 }).events
            = errorNames s.events := by
          show errorNames A.events = _
          rw [hA, attempt_err_eq, if_neg (by rw [hg]; exact fun he => by cases he)]
          simp [emit, errorNames_append, errorNames_fp]
        rw [hAe]
        simp [List.filter_cons, hpred]

/-- When every tile's file already exists (and no stop is observed), the
loop touches nothing: no GET, no bytes, no directory change. -/
theorem downloadLoop_allSkip (cfg : Cfg) (hstop : cfg.stopAt = none) :
    ∀ l s i total, (∀ t ∈ l, (fsGet s.fs (fileName t.1 t.2)).isSome = true) →
      (downloadLoop cfg s i total l).fs = s.fs ∧
      (downloadLoop cfg s i total l).gets = s.gets ∧
      byteProgressValues (downloadLoop cfg s i total l).events
        = byteProgressValues s.events := by
  intro l
  induction l with
  | nil => intro s i total hall; exact ⟨rfl, rfl, rfl⟩
  | cons t rest ih =>
    intro s i total hall
    simp only [downloadLoop, poll, stopObserved_none hstop]
    split
    · rename_i hc; exact absurd hc Bool.false_ne_true
    split
    · obtain ⟨h1, h2, h3⟩ := ih (emit (emit { s with polls := s.polls + 1 }
        (Ev.fileProgress (i + 1) total))
        (Ev.tileFinished (Msg.skipped (fileName t.1 t.2)))) (i + 1) total
        (fun u hu => hall u (by simp [hu]))
      refine ⟨h1, h2, ?_⟩
      rw [h3]
      show byteProgressValues ((s.events ++ [Ev.fileProgress (i + 1) total])
        ++ [Ev.tileFinished (Msg.skipped (fileName t.1 t.2))]) = byteProgressValues s.events
      rw [byteProgressValues_append, byteProgressValues_append, byteProgressValues_fp,
        byteProgressValues_skip, List.append_nil, List.append_nil]
    · rename_i hex
      exact absurd (hall t (by simp)) hex

theorem fileProgressEvents_calculating :
    fileProgressEvents [Ev.tileFinished Msg.calculating] = [] := rfl

theorem fileProgressEvents_finished : fileProgressEvents [Ev.finished] = [] := rfl

theorem errorNames_calculating : errorNames [Ev.tileFinished Msg.calculating] = [] := rfl

theorem errorNames_finished : errorNames [Ev.finished] = [] := rfl

theorem byteProgressValues_calculating :
    byteProgressValues [Ev.tileFinished Msg.calculating] = [] := rfl

theorem byteProgressValues_finished : byteProgressValues [Ev.finished] = [] := rfl

/-- With a working client and the stop flag never observed, `run` is the
main loop started from a state that carries only the `"Calculating..."`
status, the initial directory, and zero GETs and bytes, followed by the
one `finished` of the `finally` block. -/
theorem run_noStop_decomp (cfg : Cfg) (hclient : cfg.clientOk = true)
    (hstop : cfg.stopAt = none) :
    ∃ R : St, run cfg = emit (downloadLoop cfg R 0 cfg.tiles.length cfg.tiles) Ev.finished ∧
      R.events = [Ev.tileFinished Msg.calculating] ∧ R.fs = cfg.fs0 ∧
      R.gets = 0 ∧ R.cum = 0 := by
  have hpre := preflight_preserves cfg cfg.tiles (emit (initSt cfg) (.tileFinished .calculating))
  refine ⟨{ preflight cfg (emit (initSt cfg) (.tileFinished .calculating)) cfg.tiles with
      polls := (preflight cfg (emit (initSt cfg)
        (.tileFinished .calculating)) cfg.tiles).polls + 1 }, ?_, ?_, ?_, ?_, ?_⟩
  · unfold run
    rw [if_neg (by simp [hclient])]
    simp only [runBody, poll]
    rw [stopObserved_none hstop, if_neg Bool.false_ne_true]
  · exact hpre.1
  · exact hpre.2.1
  · exact hpre.2.2.1
  · exact hpre.2.2.2

/-- **C5.**  With no cancellation, the job processes every tile — one
`file_progress` pair `(i, total)` for `i = 1 … total`, in order — and
the per-tile error notifications are exactly one per failing tile (local
file absent at start and remote GET failing), each naming that tile's
file: one tile's failure never aborts the job. -/
theorem C5_per_tile_errors_isolated (cfg : Cfg)
    (hclient : cfg.clientOk = true) (hstop : cfg.stopAt = none) :
    fileProgressEvents (run cfg).events = fpExpected 0 cfg.tiles.length cfg.tiles.length ∧
    errorNames (run cfg).events
      = (cfg.tiles.filter (failPred cfg)).map (fun t => fileName t.1 t.2) := by
  obtain ⟨R, hrun, hev, hfs, hgets, hcum⟩ := run_noStop_decomp cfg hclient hstop
  rw [hrun]
  constructor
  · show fileProgressEvents ((downloadLoop cfg R 0 cfg.tiles.length cfg.tiles).events
      ++ [Ev.finished]) = _
    rw [fileProgressEvents_append, downloadLoop_noStop_fp cfg hstop cfg.tiles R 0
      cfg.tiles.length, hev, fileProgressEvents_calculating, fileProgressEvents_finished]
    simp
  · show errorNames ((downloadLoop cfg R 0 cfg.tiles.length cfg.tiles).events
      ++ [Ev.finished]) = _
    have hinv : UntouchedIfFailing cfg R.fs := by
      intro n hg
      rw [hfs]
    rw [errorNames_append, downloadLoop_noStop_err cfg hstop cfg.tiles R 0
      cfg.tiles.length hinv, hev, errorNames_calculating, errorNames_finished]
    simp

/-- The spec's own isolation scenario: tile (46,11) missing remotely,
tile (46,12) present with one 100-byte chunk, empty directory. -/
def cfgC5w : Cfg :=
  ⟨[(46, 11), (46, 12)], [], true, fun _ => none,
    fun n => if n = fileName 46 12 then some [100] else none, none⟩

/-- Witness for `C5_per_tile_errors_isolated` at the spec's scenario:
both tiles get their `file_progress`, and exactly one error names the
missing tile's file. -/
theorem C5_per_tile_errors_isolated_witness :
    cfgC5w.clientOk = true ∧ cfgC5w.stopAt = none ∧
    (fileProgressEvents (run cfgC5w).events
        = fpExpected 0 cfgC5w.tiles.length cfgC5w.tiles.length ∧
      errorNames (run cfgC5w).events
        = (cfgC5w.tiles.filter (failPred cfgC5w)).map (fun t => fileName t.1 t.2)) :=
  ⟨rfl, rfl, C5_per_tile_errors_isolated cfgC5w rfl rfl⟩

/-- **C6.**  Within any one job, the cumulative byte values carried by
the successive `total_progress_updated` emissions are monotonically
non-decreasing: no emitted cumulative value is ever smaller than an
earlier one. -/
theorem C6_byte_progress_monotone (cfg : Cfg) :
    (byteProgressValues (run cfg).events).Pairwise (· ≤ ·) := by
  unfold run
  split
  · show (byteProgressValues ([] ++ [Ev.errorOccurred ErrMsg.critical] ++ [Ev.finished])).Pairwise _
    simp [byteProgressValues]
  · simp only [runBody, poll]
    have hpre := preflight_preserves cfg cfg.tiles (emit (initSt cfg) (.tileFinished .calculating))
    have hbase : MonoEv
        (preflight cfg (emit (initSt cfg) (.tileFinished .calculating)) cfg.tiles).events
        (preflight cfg (emit (initSt cfg) (.tileFinished .calculating)) cfg.tiles).cum := by
      rw [hpre.1, hpre.2.2.2]
      show MonoEv ([] ++ [Ev.tileFinished Msg.calculating]) 0
      exact MonoEv_nonbyte _ rfl ⟨List.Pairwise.nil, by intro x hx; cases hx⟩
    split
    · -- cancelled during estimation: three more non-byte events
      refine (MonoEv_nonbyte Ev.finished rfl (MonoEv_nonbyte Ev.finished rfl
        (MonoEv_nonbyte (Ev.tileFinished Msg.cancelledDuringCalc) rfl hbase))).1
    · -- download loop, then the trailing finished of the finally block
      have h2 := MonoEv_nonbyte Ev.finished rfl (downloadLoop_mono cfg cfg.tiles
        { preflight cfg (emit (initSt cfg) (.tileFinished .calculating)) cfg.tiles with
          polls := (preflight cfg (emit (initSt cfg)
            (.tileFinished .calculating)) cfg.tiles).polls + 1 }
        0 cfg.tiles.length hbase)
      exact h2.1

/-! ## C7: Skip-idempotence -/

/-- The empty job over an empty directory. -/
def cfgC7e : Cfg := ⟨[], [], true, fun _ => none, fun _ => none, none⟩

/-- **C7, counterexample.**  The claim quantifies over *every* job whose
target directory already holds every tile's file — which the empty job
satisfies vacuously — and asserts that file-sequence progress reaches
`(total, total)`; but a job of zero tiles emits no `file_progress` event
at all, so progress never reaches `(0, 0)`. -/
theorem C7_counterexample :
    (∀ t ∈ cfgC7e.tiles, (fsGet cfgC7e.fs0 (fileName t.1 t.2)).isSome = true) ∧
    cfgC7e.tiles.length = 0 ∧
    fileProgressEvents (run cfgC7e).events = [] ∧
    (cfgC7e.tiles.length, cfgC7e.tiles.length) ∉ fileProgressEvents (run cfgC7e).events := by
  decide

/-- **C7 (amended).**  For every *non-empty* job with a working client
and no cancellation whose target directory already contains every
tile's local file, the run performs zero GET calls, emits no
byte-progress event (zero bytes transferred), and its file-sequence
progress reaches `(total, total)`.  (For the empty job the zero-GET and
zero-byte parts still hold, but no file-sequence event is emitted at
all — see the counterexample.) -/
theorem C7_skip_idempotent (cfg : Cfg)
    (hclient : cfg.clientOk = true) (hstop : cfg.stopAt = none)
    (hall : ∀ t ∈ cfg.tiles, (fsGet cfg.fs0 (fileName t.1 t.2)).isSome = true)
    (hne : cfg.tiles ≠ []) :
    (run cfg).gets = 0 ∧
    byteProgressValues (run cfg).events = [] ∧
    (cfg.tiles.length, cfg.tiles.length) ∈ fileProgressEvents (run cfg).events := by
  obtain ⟨R, hrun, hev, hfs, hgets, hcum⟩ := run_noStop_decomp cfg hclient hstop
  have hallR : ∀ t ∈ cfg.tiles, (fsGet R.fs (fileName t.1 t.2)).isSome = true := by
    intro u hu
    rw [hfs]
    exact hall u hu
  obtain ⟨hfs2, hgets2, hbytes⟩ :=
    downloadLoop_allSkip cfg hstop cfg.tiles R 0 cfg.tiles.length hallR
  rw [hrun]
  refine ⟨?_, ?_, ?_⟩
  · show (downloadLoop cfg R 0 cfg.tiles.length cfg.tiles).gets = 0
    rw [hgets2, hgets]
  · show byteProgressValues ((downloadLoop cfg R 0 cfg.tiles.length cfg.tiles).events
      ++ [Ev.finished]) = []
    rw [byteProgressValues_append, hbytes, hev, byteProgressValues_calculating,
      byteProgressValues_finished]
    rfl
  · show (cfg.tiles.length, cfg.tiles.length) ∈
      fileProgressEvents ((downloadLoop cfg R 0 cfg.tiles.length cfg.tiles).events
        ++ [Ev.finished])
    rw [fileProgressEvents_append, downloadLoop_noStop_fp cfg hstop cfg.tiles R 0
      cfg.tiles.length, hev, fileProgressEvents_calculating, fileProgressEvents_finished]
    have hmem := fpExpected_mem cfg.tiles.length cfg.tiles.length 0 (List.length_pos.mpr hne)
    simpa using hmem

/-- A two-tile job whose directory already holds both files. -/
def cfgC7w : Cfg :=
  ⟨[(46, 11), (46, 12)], [(fileName 46 11, 5), (fileName 46 12, 7)], true,
    fun _ => some 300, fun _ => some [100], none⟩

/-- Witness for `C7_skip_idempotent` on the two-tile all-present job. -/
theorem C7_skip_idempotent_witness :
    (cfgC7w.clientOk = true ∧ cfgC7w.stopAt = none ∧
      (∀ t ∈ cfgC7w.tiles, (fsGet cfgC7w.fs0 (fileName t.1 t.2)).isSome = true) ∧
      cfgC7w.tiles ≠ []) ∧
    ((run cfgC7w).gets = 0 ∧
      byteProgressValues (run cfgC7w).events = [] ∧
      (cfgC7w.tiles.length, cfgC7w.tiles.length) ∈ fileProgressEvents (run cfgC7w).events) :=
  ⟨⟨rfl, rfl, by decide, by decide⟩,
    C7_skip_idempotent cfgC7w rfl rfl (by decide) (by decide)⟩

/-! ## C10: cancellation during size estimation -/

/-- **C10.**  If the stop flag is set early enough to be observed during
the size-estimation phase (first observable poll index at most the tile
count), the engine exits before entering the download loop: the whole
trace is the `"Calculating..."` status, the distinguishable
cancelled-during-size-calculation status, and the terminal
notifications — no `file_progress`, no per-tile status, no GET call, and
the directory entirely untouched. -/
theorem C10_cancelled_during_estimation (cfg : Cfg) (k : Nat)
    (hclient : cfg.clientOk = true) (hstop : cfg.stopAt = some k)
    (hk : k ≤ cfg.tiles.length) :
    (run cfg).events = [Ev.tileFinished Msg.calculating,
      Ev.tileFinished Msg.cancelledDuringCalc, Ev.finished, Ev.finished] ∧
    (run cfg).gets = 0 ∧ (run cfg).fs = cfg.fs0 := by
  have hpre := preflight_preserves cfg cfg.tiles (emit (initSt cfg) (.tileFinished .calculating))
  have hpolls := preflight_polls_ge cfg k hstop cfg.tiles
    (emit (initSt cfg) (.tileFinished .calculating))
    (by show k ≤ 0 + cfg.tiles.length; omega)
  have hobs : stopObserved cfg
      (preflight cfg (emit (initSt cfg) (.tileFinished .calculating)) cfg.tiles).polls
        = true := by
    simp only [stopObserved, hstop]
    exact decide_eq_true hpolls
  unfold run
  rw [if_neg (by simp [hclient])]
  simp only [runBody, poll]
  rw [if_pos hobs]
  refine ⟨?_, ?_, ?_⟩
  · show (((preflight cfg (emit (initSt cfg) (.tileFinished .calculating)) cfg.tiles).events
      ++ [Ev.tileFinished Msg.cancelledDuringCalc]) ++ [Ev.finished]) ++ [Ev.finished] = _
    rw [hpre.1]
    rfl
  · show (preflight cfg (emit (initSt cfg) (.tileFinished .calculating)) cfg.tiles).gets = 0
    rw [hpre.2.2.1]
    rfl
  · show (preflight cfg (emit (initSt cfg) (.tileFinished .calculating)) cfg.tiles).fs = cfg.fs0
    rw [hpre.2.1]
    rfl

/-- A two-tile job whose stop flag is first observed at poll index 1:
the second pre-flight check sees it. -/
def cfgC10w : Cfg :=
  ⟨[(46, 11), (46, 12)], [], true, fun _ => some 10, fun _ => none, some 1⟩

/-- Witness for `C10_cancelled_during_estimation`. -/
theorem C10_cancelled_during_estimation_witness :
    (cfgC10w.clientOk = true ∧ cfgC10w.stopAt = some 1 ∧ 1 ≤ cfgC10w.tiles.length) ∧
    ((run cfgC10w).events = [Ev.tileFinished Msg.calculating,
        Ev.tileFinished Msg.cancelledDuringCalc, Ev.finished, Ev.finished] ∧
      (run cfgC10w).gets = 0 ∧ (run cfgC10w).fs = cfgC10w.fs0) :=
  ⟨⟨rfl, rfl, by decide⟩,
    C10_cancelled_during_estimation cfgC10w 1 rfl rfl (by decide)⟩

end Copernicus
